import Mathlib

/-!
Shallow embedding of the VibeHunt backend (src/main.py) over an abstract
document store.  The three Mongo collections (post, vote, comment) become
lists of records; ObjectIds become naturals drawn from a fresh-id counter;
`datetime.now(timezone.utc)` becomes an explicit integer clock parameter
(seconds); a raised HTTPException becomes an `Except` error paired with the
store as it stood at the moment of the raise.  The embedding models the
db-available path (`db is not None`).
-/

namespace VibeHunt

/-- The error kinds raised by the routes: HTTP 400 "Invalid id",
HTTP 404 "Post not found", HTTP 500 "Database not available". -/
inductive ApiError where
  | invalidId
  | notFound
  | dbUnavailable
  deriving DecidableEq

/-- A document of the `post` collection. -/
structure Post where
  id : Nat
  title : String
  tagline : String
  maker : Option String
  url : Option String
  votes_count : Int
  comments_count : Int
  created_at : Int
  updated_at : Int
  deriving DecidableEq

/-- A document of the `vote` collection. -/
structure Vote where
  id : Nat
  post_id : Nat
  device_id : String
  created_at : Int
  updated_at : Int
  deriving DecidableEq

/-- A document of the `comment` collection. -/
structure Comment where
  id : Nat
  post_id : Nat
  author : Option String
  content : String
  device_id : Option String
  created_at : Int
  updated_at : Int
  deriving DecidableEq

/-- The persistent store: the three collections in insertion order plus the
fresh-id counter used to model store-assigned ObjectIds. -/
structure Store where
  posts : List Post
  votes : List Vote
  comments : List Comment
  nextId : Nat
  deriving DecidableEq

def emptyStore : Store := ⟨[], [], [], 0⟩

instance {ε α : Type} [DecidableEq ε] [DecidableEq α] : DecidableEq (Except ε α) := fun a b =>
  match a, b with
  | Except.ok x, Except.ok y => decidable_of_iff (x = y) (by simp)
  | Except.ok _, Except.error _ => isFalse (by intro h; cases h)
  | Except.error _, Except.ok _ => isFalse (by intro h; cases h)
  | Except.error e, Except.error f => decidable_of_iff (e = f) (by simp)

/-- One day, in seconds (`timedelta(days=1)`). -/
def day : Int := 86400

/-- One hour, in seconds (`timedelta(hours=1)`). -/
def hour : Int := 3600

/-- Value of a hexadecimal digit, `none` for a non-hex character. -/
def hexVal (c : Char) : Option Nat :=
  if '0' ≤ c ∧ c ≤ '9' then some (c.toNat - '0'.toNat)
  else if 'a' ≤ c ∧ c ≤ 'f' then some (c.toNat - 'a'.toNat + 10)
  else if 'A' ≤ c ∧ c ≤ 'F' then some (c.toNat - 'A'.toNat + 10)
  else none

/-- A string is accepted by the `bson.ObjectId` constructor exactly when it
is a 24-character hexadecimal string. -/
def isValidObjectId (s : String) : Bool :=
  s.length == 24 && s.data.all (fun c => (hexVal c).isSome)

/-- The numeric value a valid ObjectId string denotes. -/
def oidVal (s : String) : Nat :=
  s.data.foldl (fun acc c => 16 * acc + ((hexVal c).getD 0)) 0

/-- Function `oid` of main.py: parse an id string, raising HTTP 400 "Invalid id" when
`ObjectId(id_str)` rejects it. -/
def oid (s : String) : Except ApiError Nat :=
  if isValidObjectId s then Except.ok (oidVal s) else Except.error ApiError.invalidId

/-- Lookup `db["post"].find_one(\x7b"_id": pid\x7d)`: first post with the given id. -/
def find_post (s : Store) (pid : Nat) : Option Post :=
  s.posts.find? (fun p => p.id == pid)

/-- Lookup `db["vote"].find_one(\x7b"post_id": pid, "device_id": dev\x7d)`: first vote
with the exact (post_id, device_id) pair. -/
def find_vote (s : Store) (pid : Nat) (dev : String) : Option Vote :=
  s.votes.find? (fun v => v.post_id == pid && v.device_id == dev)

/-- Mongo `update_one`: rewrite the first element satisfying the filter, if any. -/
def updateFirst (q : α → Bool) (f : α → α) : List α → List α
  | [] => []
  | x :: xs => if q x then f x :: xs else x :: updateFirst q f xs

/-- Python `str.strip()`: drop leading and trailing whitespace.  (Defined by
structural recursion over the character list so the kernel can evaluate it.) -/
def pyStrip (s : String) : String :=
  ⟨((s.data.dropWhile Char.isWhitespace).reverse.dropWhile Char.isWhitespace).reverse⟩

/-- Python `(x or "").strip() or None`: trim, and turn an absent or
empty-after-trim string into `None`. -/
def stripOrNone (o : Option String) : Option String :=
  let t := pyStrip (o.getD "")
  if t = "" then none else some t

/-- Python `(x or None)`: an absent or empty string becomes `None`. -/
def orNone (o : Option String) : Option String :=
  match o with
  | none => none
  | some d => if d = "" then none else some d

/-- Route `create_post` (POST /api/posts), db-available path: build the document
with trimmed fields, zero counters and fresh timestamps, insert it, and
return it with its assigned id. -/
def create_post (s : Store) (title tagline : String) (maker url : Option String)
    (now : Int) : Store × Post :=
  let p : Post :=
    { id := s.nextId
      title := pyStrip title
      tagline := pyStrip tagline
      maker := stripOrNone maker
      url := stripOrNone url
      votes_count := 0
      comments_count := 0
      created_at := now
      updated_at := now }
  ({ s with posts := s.posts ++ [p], nextId := s.nextId + 1 }, p)

/-- Route `toggle_vote` (POST /api/posts/:id/vote), db-available path.  Returns the
route's result (voted flag and the re-read votes_count) together with the
store as left by the call (unchanged when an exception was raised). -/
def toggle_vote (s : Store) (post_id device_id : String) (now : Int) :
    Except ApiError (Bool × Int) × Store :=
  match oid post_id with
  | Except.error e => (Except.error e, s)
  | Except.ok pid =>
    match find_post s pid with
    | none => (Except.error ApiError.notFound, s)
    | some _ =>
      match find_vote s pid device_id with
      | some existing =>
        -- unvote: delete that vote, decrement votes_count, refresh updated_at
        let s1 : Store := { s with votes := s.votes.eraseP (fun v => v.id == existing.id) }
        let dec : Post → Post := fun p =>
          { p with votes_count := p.votes_count - 1, updated_at := now }
        let s2 : Store :=
          { s1 with posts := updateFirst (fun p => p.id == pid) dec s1.posts }
        (Except.ok (false, ((find_post s2 pid).map Post.votes_count).getD 0), s2)
      | none =>
        -- vote: insert a fresh vote, increment votes_count, refresh updated_at
        let nv : Vote :=
          { id := s.nextId, post_id := pid, device_id := device_id
            created_at := now, updated_at := now }
        let s1 : Store := { s with votes := s.votes ++ [nv], nextId := s.nextId + 1 }
        let inc : Post → Post := fun p =>
          { p with votes_count := p.votes_count + 1, updated_at := now }
        let s2 : Store :=
          { s1 with posts := updateFirst (fun p => p.id == pid) inc s1.posts }
        (Except.ok (true, ((find_post s2 pid).map Post.votes_count).getD 0), s2)

/-- Route `add_comment` (POST /api/posts/:id/comments): check the post exists,
insert the comment with trimmed content, increment comments_count. -/
def add_comment (s : Store) (post_id content : String)
    (author device_id : Option String) (now : Int) :
    Except ApiError Comment × Store :=
  match oid post_id with
  | Except.error e => (Except.error e, s)
  | Except.ok pid =>
    match find_post s pid with
    | none => (Except.error ApiError.notFound, s)
    | some _ =>
      let c : Comment :=
        { id := s.nextId, post_id := pid
          author := stripOrNone author
          content := pyStrip content
          device_id := orNone device_id
          created_at := now, updated_at := now }
      let s1 : Store := { s with comments := s.comments ++ [c], nextId := s.nextId + 1 }
      let inc : Post → Post := fun p =>
        { p with comments_count := p.comments_count + 1, updated_at := now }
      let s2 : Store :=
        { s1 with posts := updateFirst (fun p => p.id == pid) inc s1.posts }
      (Except.ok c, s2)

/-- Route `get_post` (GET /api/posts/:id). -/
def get_post (s : Store) (post_id : String) : Except ApiError Post × Store :=
  match oid post_id with
  | Except.error e => (Except.error e, s)
  | Except.ok pid =>
    match find_post s pid with
    | none => (Except.error ApiError.notFound, s)
    | some p => (Except.ok p, s)

/-- Route `list_comments` (GET /api/posts/:id/comments): all comments with the
matching post_id, created_at descending; no post-existence check. -/
def list_comments (s : Store) (post_id : String) :
    Except ApiError (List Comment) × Store :=
  match oid post_id with
  | Except.error e => (Except.error e, s)
  | Except.ok pid =>
    (Except.ok ((s.comments.filter (fun c => c.post_id == pid)).mergeSort
        (fun a b => decide (b.created_at ≤ a.created_at))), s)

/-- The time filter of `list_posts`: `week` and `month` impose a creation-time
lower bound, anything else leaves the collection unfiltered. -/
def rangeFilter (range : String) (now : Int) (posts : List Post) : List Post :=
  if range = "week" then posts.filter (fun p => decide (now - 7 * day ≤ p.created_at))
  else if range = "month" then posts.filter (fun p => decide (now - 30 * day ≤ p.created_at))
  else posts

/-- The primary sort key of `list_posts`. -/
def sortKey (sort : String) : Post → Int :=
  if sort = "comments" then Post.comments_count
  else if sort = "latest" then Post.created_at
  else Post.votes_count

/-- The compound Mongo sort `[sort_key desc, created_at desc]` as a total
boolean preorder: `a` may precede `b`. -/
def postLe (key : Post → Int) (a b : Post) : Bool :=
  decide (key b < key a) || (decide (key a = key b) && decide (b.created_at ≤ a.created_at))

/-- Route `list_posts` (GET /api/posts), db-available path: filter by range, then
sort by the selected key descending with created_at descending tie-break. -/
def list_posts (s : Store) (range sort : String) (now : Int) : List Post :=
  (rangeFilter range now s.posts).mergeSort (postLe (sortKey sort))

/-- The four sample posts of `seed_posts`, with their hardcoded demo
counters and back-dated timestamps, receiving ids from `n0`. -/
def samplePosts (now : Int) (n0 : Nat) : List Post :=
  [ { id := n0
      title := "Auto-SaaS Genie"
      tagline := "AI that builds and ships micro-SaaS from a prompt."
      maker := some "@vibe-wizard"
      url := some "https://example.com/genie"
      votes_count := 28, comments_count := 6
      created_at := now - 25 * day, updated_at := now - 2 * day },
    { id := n0 + 1
      title := "Recurring Notion Shop"
      tagline := "Turn any Notion template into a paid subscription."
      maker := some "@opsmith"
      url := some "https://example.com/notion-shop"
      votes_count := 41, comments_count := 9
      created_at := now - 5 * day, updated_at := now - 1 * day },
    { id := n0 + 2
      title := "Tweet-to-Product"
      tagline := "Scrape your best tweets and spin them into a paid course + app."
      maker := some "@shipdaily"
      url := some "https://example.com/tweet-product"
      votes_count := 12, comments_count := 2
      created_at := now - 2 * day, updated_at := now - 12 * hour },
    { id := n0 + 3
      title := "API to Airtable Cashflow"
      tagline := "One-click Stripe analytics in Airtable with churn & MRR."
      maker := some "@revenuebits"
      url := some "https://example.com/cashflow"
      votes_count := 33, comments_count := 4
      created_at := now - 15 * day, updated_at := now - 6 * day } ]

/-- Startup `seed_posts`: when the post collection is empty, insert the four samples
and then one "demo-device" vote for each of the first two posts found. -/
def seed_posts (s : Store) (now : Int) : Store :=
  if s.posts.length > 0 then s
  else
    let ps := samplePosts now s.nextId
    let s1 : Store := { s with posts := s.posts ++ ps, nextId := s.nextId + ps.length }
    let demo := s1.posts.take 2
    demo.foldl
      (fun st p =>
        { st with
          votes := st.votes ++
            [{ id := st.nextId, post_id := p.id, device_id := "demo-device"
               created_at := now, updated_at := now }]
          nextId := st.nextId + 1 })
      s1

/-- Number of Vote records whose post_id references the given post id. -/
def countVotesFor (votes : List Vote) (pid : Nat) : Nat :=
  (votes.filter (fun v => v.post_id == pid)).length

/-- Number of Comment records whose post_id references the given post id. -/
def countCommentsFor (comments : List Comment) (pid : Nat) : Nat :=
  (comments.filter (fun c => c.post_id == pid)).length

/-- The counter-consistency invariant: every post's cached counters equal the
number of Vote and Comment records referencing it. -/
def counterInv (s : Store) : Prop :=
  ∀ p ∈ s.posts, p.votes_count = (countVotesFor s.votes p.id : Int) ∧
    p.comments_count = (countCommentsFor s.comments p.id : Int)

/-- Two votes do not share their (post_id, device_id) idempotency key. -/
def votePairOk (v w : Vote) : Prop :=
  v.post_id ≠ w.post_id ∨ v.device_id ≠ w.device_id

/-- At most one Vote per (post_id, device_id) pair. -/
def voteUniq (s : Store) : Prop :=
  s.votes.Pairwise votePairOk

/-- Structural well-formedness of a store: ids below the fresh-id counter and
pairwise distinct, and votes/comments referencing existing posts. -/
def storeWF (s : Store) : Prop :=
  (∀ i ∈ s.posts.map Post.id, i < s.nextId) ∧
  (∀ i ∈ s.votes.map Vote.id, i < s.nextId) ∧
  (∀ i ∈ s.comments.map Comment.id, i < s.nextId) ∧
  (s.posts.map Post.id).Nodup ∧
  (s.votes.map Vote.id).Nodup ∧
  (∀ v ∈ s.votes, v.post_id ∈ s.posts.map Post.id) ∧
  (∀ c ∈ s.comments, c.post_id ∈ s.posts.map Post.id)

instance (v w : Vote) : Decidable (votePairOk v w) := by
  unfold votePairOk
  infer_instance

instance (s : Store) : Decidable (voteUniq s) := by
  unfold voteUniq
  infer_instance

instance (s : Store) : Decidable (storeWF s) := by
  unfold storeWF
  infer_instance

instance (s : Store) : Decidable (counterInv s) := by
  unfold counterInv
  infer_instance

/-- The states the program's operations (startup seeding aside) can reach
from the empty store. -/
inductive Reachable : Store → Prop where
  | empty : Reachable emptyStore
  | create (s : Store) (title tagline : String) (maker url : Option String) (now : Int) :
      Reachable s → Reachable (create_post s title tagline maker url now).1
  | toggle (s : Store) (post_id device_id : String) (now : Int) :
      Reachable s → Reachable (toggle_vote s post_id device_id now).2
  | comment (s : Store) (post_id content : String) (author device_id : Option String) (now : Int) :
      Reachable s → Reachable (add_comment s post_id content author device_id now).2

/-- Calling `toggle_vote` N times in sequence with the same arguments:
the list of returned results and the final store. -/
def toggleN (s : Store) (post_id device_id : String) (now : Int) :
    Nat → List (Except ApiError (Bool × Int)) × Store
  | 0 => ([], s)
  | n + 1 =>
    let r := toggle_vote s post_id device_id now
    let rest := toggleN r.2 post_id device_id now n
    (r.1 :: rest.1, rest.2)

/-- The state from which a toggle sequence is claimed to alternate: the post
exists with the given votes_count and the device holds no vote on it, in a
well-formed store satisfying the vote-uniqueness invariant. -/
def OffState (s : Store) (pid : Nat) (dev : String) (v0 : Int) : Prop :=
  storeWF s ∧ voteUniq s ∧ find_vote s pid dev = none ∧
  (find_post s pid).map Post.votes_count = some v0

/-- The dual state: the device currently holds a vote on the post and the
post's votes_count is `v1`. -/
def OnState (s : Store) (pid : Nat) (dev : String) (v1 : Int) : Prop :=
  storeWF s ∧ voteUniq s ∧ (find_vote s pid dev).isSome = true ∧
  (find_post s pid).map Post.votes_count = some v1

instance (s : Store) (pid : Nat) (dev : String) (v0 : Int) : Decidable (OffState s pid dev v0) := by
  unfold OffState
  infer_instance

instance (s : Store) (pid : Nat) (dev : String) (v1 : Int) : Decidable (OnState s pid dev v1) := by
  unfold OnState
  infer_instance

/-- Results of N sequential toggles started from an `OffState` with count
`v0`: odd-numbered calls (index k even) report voted with count `v0 + 1`,
even-numbered calls report unvoted with count back to `v0`. -/
def offPattern (v0 : Int) (N : Nat) : List (Except ApiError (Bool × Int)) :=
  (List.range N).map
    (fun k => Except.ok (decide (k % 2 = 0), if k % 2 = 0 then v0 + 1 else v0))

/-- Results of N sequential toggles started from an `OnState` with count
`v1`: odd-numbered calls report unvoted with count `v1 - 1`, even-numbered
calls report voted with count back to `v1`. -/
def onPattern (v1 : Int) (N : Nat) : List (Except ApiError (Bool × Int)) :=
  (List.range N).map
    (fun k => Except.ok (decide (k % 2 = 1), if k % 2 = 1 then v1 else v1 - 1))

/-- A tiny concrete store with one post, used by witnesses. -/
def wStore : Store := ⟨[⟨0, "A", "B", none, none, 0, 0, 0, 0⟩], [], [], 1⟩

/-! ### Helper lemmas about the store primitives -/

theorem updateFirst_map {α β : Type} (q : α → Bool) (f : α → α) (g : α → β)
    (hf : ∀ x, g (f x) = g x) : ∀ l : List α, (updateFirst q f l).map g = l.map g
  | [] => rfl
  | x :: xs => by
    by_cases h : q x
    · simp [updateFirst, h, hf]
    · simp [updateFirst, h, updateFirst_map q f g hf xs]

theorem find?_updateFirst {α : Type} (q : α → Bool) (f : α → α)
    (hq : ∀ x, q (f x) = q x) :
    ∀ l : List α, (updateFirst q f l).find? q = (l.find? q).map f
  | [] => rfl
  | a :: l => by
    by_cases h : q a
    · have hfa : q (f a) = true := by rw [hq]; exact h
      simp [updateFirst, h, List.find?_cons_of_pos _ hfa]
    · have : (updateFirst q f (a :: l)) = a :: updateFirst q f l := by
        simp [updateFirst, h]
      rw [this, List.find?_cons_of_neg _ h, List.find?_cons_of_neg _ h]
      exact find?_updateFirst q f hq l

theorem mem_updateFirst_nodup (f : Post → Post) (pid : Nat) :
    ∀ l : List Post, (l.map Post.id).Nodup →
      ∀ x : Post, x ∈ updateFirst (fun p => p.id == pid) f l →
      (x ∈ l ∧ x.id ≠ pid) ∨ ∃ y, y ∈ l ∧ y.id = pid ∧ x = f y
  | [], _, x, hx => absurd hx (by simp [updateFirst])
  | a :: l, hn, x, hx => by
    rw [List.map_cons, List.nodup_cons] at hn
    by_cases h : a.id = pid
    · have hrw : updateFirst (fun p => p.id == pid) f (a :: l) = f a :: l := by
        simp [updateFirst, h]
      rw [hrw] at hx
      rcases List.mem_cons.mp hx with rfl | hx
      · exact Or.inr ⟨a, List.mem_cons_self a l, h, rfl⟩
      · refine Or.inl ⟨List.mem_cons_of_mem _ hx, fun hxid => hn.1 ?_⟩
        have : x.id ∈ l.map Post.id := List.mem_map_of_mem Post.id hx
        rwa [hxid, ← h] at this
    · have hrw : updateFirst (fun p => p.id == pid) f (a :: l)
          = a :: updateFirst (fun p => p.id == pid) f l := by
        simp [updateFirst, h]
      rw [hrw] at hx
      rcases List.mem_cons.mp hx with rfl | hx
      · exact Or.inl ⟨List.mem_cons_self _ _, h⟩
      · rcases mem_updateFirst_nodup f pid l hn.2 x hx with ⟨h1, h2⟩ | ⟨y, hy, hyid, hxy⟩
        · exact Or.inl ⟨List.mem_cons_of_mem _ h1, h2⟩
        · exact Or.inr ⟨y, List.mem_cons_of_mem _ hy, hyid, hxy⟩

theorem countVotesFor_append (a b : List Vote) (pid : Nat) :
    countVotesFor (a ++ b) pid = countVotesFor a pid + countVotesFor b pid := by
  simp [countVotesFor, List.filter_append]

theorem countVotesFor_singleton (v : Vote) (pid : Nat) :
    countVotesFor [v] pid = if v.post_id = pid then 1 else 0 := by
  by_cases h : v.post_id = pid <;> simp [countVotesFor, List.filter_cons, h]

theorem countVotesFor_eq_zero (votes : List Vote) (pid : Nat)
    (h : ∀ v ∈ votes, v.post_id ≠ pid) : countVotesFor votes pid = 0 := by
  simp only [countVotesFor, List.length_eq_zero]
  exact List.filter_eq_nil_iff.mpr (fun v hv => by simp [h v hv])

theorem countCommentsFor_append (a b : List Comment) (pid : Nat) :
    countCommentsFor (a ++ b) pid = countCommentsFor a pid + countCommentsFor b pid := by
  simp [countCommentsFor, List.filter_append]

theorem countCommentsFor_singleton (c : Comment) (pid : Nat) :
    countCommentsFor [c] pid = if c.post_id = pid then 1 else 0 := by
  by_cases h : c.post_id = pid <;> simp [countCommentsFor, List.filter_cons, h]

theorem countCommentsFor_eq_zero (comments : List Comment) (pid : Nat)
    (h : ∀ c ∈ comments, c.post_id ≠ pid) : countCommentsFor comments pid = 0 := by
  simp only [countCommentsFor, List.length_eq_zero]
  exact List.filter_eq_nil_iff.mpr (fun c hc => by simp [h c hc])

/-- Deleting the vote found by the exact-pair lookup splits the vote list
around that vote, and no vote before it matches the pair. -/
theorem erase_found_decomp (pid : Nat) (dev : String) :
    ∀ votes : List Vote, (votes.map Vote.id).Nodup →
      ∀ v : Vote, votes.find? (fun w => w.post_id == pid && w.device_id == dev) = some v →
      ∃ l₁ l₂, votes = l₁ ++ v :: l₂ ∧
        votes.eraseP (fun w => w.id == v.id) = l₁ ++ l₂ ∧
        ∀ b ∈ l₁, ¬(b.post_id = pid ∧ b.device_id = dev)
  | [], _, v, hf => by simp at hf
  | w :: votes, hn, v, hf => by
    rw [List.map_cons, List.nodup_cons] at hn
    by_cases h : w.post_id = pid ∧ w.device_id = dev
    · have hb : (w.post_id == pid && w.device_id == dev) = true := by
        simp [h.1, h.2]
      rcases List.find?_cons_eq_some.mp hf with ⟨_, rfl⟩ | ⟨hb2, _⟩
      · exact ⟨[], votes, rfl, by simp [List.eraseP_cons], by simp⟩
      · rw [hb] at hb2
        cases hb2
    · have hb : ¬((w.post_id == pid && w.device_id == dev) = true) := by
        simpa using fun h1 h2 => h ⟨h1, h2⟩
      rcases List.find?_cons_eq_some.mp hf with ⟨hb2, _⟩ | ⟨_, hf2⟩
      · exact absurd hb2 hb
      obtain ⟨l₁, l₂, heq, herase, hnone⟩ := erase_found_decomp pid dev votes hn.2 v hf2
      have hv : v ∈ votes := List.mem_of_find?_eq_some hf2
      have hne : ¬((w.id == v.id) = true) := by
        simp only [beq_iff_eq]
        intro hww
        exact hn.1 (hww ▸ List.mem_map_of_mem Vote.id hv)
      refine ⟨w :: l₁, l₂, by rw [heq, List.cons_append], ?_, ?_⟩
      · simp only [List.eraseP_cons, Bool.cond_eq_ite, if_neg hne, herase, List.cons_append]
      · intro b hb
        rcases List.mem_cons.mp hb with rfl | hb
        · exact h
        · exact hnone b hb

/-! ### Branch characterizations of the mutating operations -/

theorem toggle_vote_insert (s : Store) (post_id device_id : String) (now : Int) (pid : Nat)
    (p : Post) (hoid : oid post_id = Except.ok pid)
    (hp : find_post s pid = some p)
    (hn : find_vote s pid device_id = none) :
    toggle_vote s post_id device_id now =
      (Except.ok (true, p.votes_count + 1),
       ⟨updateFirst (fun q => q.id == pid)
           (fun q => { q with votes_count := q.votes_count + 1, updated_at := now }) s.posts,
        s.votes ++ [⟨s.nextId, pid, device_id, now, now⟩],
        s.comments,
        s.nextId + 1⟩) := by
  have hp2 : s.posts.find? (fun q => q.id == pid) = some p := hp
  have hn2 : s.votes.find? (fun w => w.post_id == pid && w.device_id == device_id) = none := hn
  have hup : (updateFirst (fun q => q.id == pid)
      (fun q => { q with votes_count := q.votes_count + 1, updated_at := now }) s.posts).find?
        (fun q => q.id == pid)
      = some { p with votes_count := p.votes_count + 1, updated_at := now } := by
    rw [find?_updateFirst (fun q => q.id == pid)
      (fun q => { q with votes_count := q.votes_count + 1, updated_at := now })
      (fun x => rfl) s.posts, hp2]
    rfl
  simp only [toggle_vote, hoid, find_post, find_vote, hp2, hn2, hup]
  simp

theorem toggle_vote_delete (s : Store) (post_id device_id : String) (now : Int) (pid : Nat)
    (p : Post) (v : Vote) (hoid : oid post_id = Except.ok pid)
    (hp : find_post s pid = some p)
    (hf : find_vote s pid device_id = some v) :
    toggle_vote s post_id device_id now =
      (Except.ok (false, p.votes_count - 1),
       ⟨updateFirst (fun q => q.id == pid)
           (fun q => { q with votes_count := q.votes_count - 1, updated_at := now }) s.posts,
        s.votes.eraseP (fun w => w.id == v.id),
        s.comments,
        s.nextId⟩) := by
  have hp2 : s.posts.find? (fun q => q.id == pid) = some p := hp
  have hf2 : s.votes.find? (fun w => w.post_id == pid && w.device_id == device_id) = some v := hf
  have hup : (updateFirst (fun q => q.id == pid)
      (fun q => { q with votes_count := q.votes_count - 1, updated_at := now }) s.posts).find?
        (fun q => q.id == pid)
      = some { p with votes_count := p.votes_count - 1, updated_at := now } := by
    rw [find?_updateFirst (fun q => q.id == pid)
      (fun q => { q with votes_count := q.votes_count - 1, updated_at := now })
      (fun x => rfl) s.posts, hp2]
    rfl
  simp only [toggle_vote, hoid, find_post, find_vote, hp2, hf2, hup]
  simp

theorem add_comment_ok (s : Store) (post_id content : String)
    (author device_id : Option String) (now : Int) (pid : Nat) (p : Post)
    (hoid : oid post_id = Except.ok pid)
    (hp : find_post s pid = some p) :
    add_comment s post_id content author device_id now =
      (Except.ok ⟨s.nextId, pid, stripOrNone author, pyStrip content, orNone device_id, now, now⟩,
       ⟨updateFirst (fun q => q.id == pid)
           (fun q => { q with comments_count := q.comments_count + 1, updated_at := now }) s.posts,
        s.votes,
        s.comments ++ [⟨s.nextId, pid, stripOrNone author, pyStrip content, orNone device_id, now, now⟩],
        s.nextId + 1⟩) := by
  simp only [add_comment, hoid, hp]

/-! ### Lookup facts -/

theorem find_post_mem (s : Store) (pid : Nat) (p : Post) (h : find_post s pid = some p) :
    p ∈ s.posts ∧ p.id = pid :=
  ⟨List.mem_of_find?_eq_some h, by simpa using List.find?_some h⟩

theorem find_vote_mem (s : Store) (pid : Nat) (dev : String) (v : Vote)
    (h : find_vote s pid dev = some v) :
    v ∈ s.votes ∧ v.post_id = pid ∧ v.device_id = dev := by
  refine ⟨List.mem_of_find?_eq_some h, ?_⟩
  have := List.find?_some h
  simpa using this

theorem find_vote_none (s : Store) (pid : Nat) (dev : String)
    (h : find_vote s pid dev = none) :
    ∀ w ∈ s.votes, ¬(w.post_id = pid ∧ w.device_id = dev) := by
  rw [find_vote, List.find?_eq_none] at h
  intro w hw hc
  exact absurd (by simp [hc.1, hc.2]) (h w hw)

theorem countVotesFor_cons (v : Vote) (l : List Vote) (pid : Nat) :
    countVotesFor (v :: l) pid = (if v.post_id = pid then 1 else 0) + countVotesFor l pid := by
  by_cases h : v.post_id = pid <;> simp [countVotesFor, List.filter_cons, h] <;> omega

theorem countCommentsFor_cons (c : Comment) (l : List Comment) (pid : Nat) :
    countCommentsFor (c :: l) pid
      = (if c.post_id = pid then 1 else 0) + countCommentsFor l pid := by
  by_cases h : c.post_id = pid <;> simp [countCommentsFor, List.filter_cons, h] <;> omega

theorem map_id_updateFirst (pid : Nat) (f : Post → Post) (l : List Post)
    (hf : ∀ q, (f q).id = q.id) :
    (updateFirst (fun q => q.id == pid) f l).map Post.id = l.map Post.id :=
  updateFirst_map (fun q => q.id == pid) f Post.id hf l

/-! ### Invariant preservation by toggle_vote -/

theorem storeWF_toggle (s : Store) (post_id device_id : String) (now : Int)
    (hwf : storeWF s) : storeWF (toggle_vote s post_id device_id now).2 := by
  obtain ⟨h1, h2, h3, h4, h5, h6, h7⟩ := hwf
  cases hoid : oid post_id with
  | error e => simpa [toggle_vote, hoid] using ⟨h1, h2, h3, h4, h5, h6, h7⟩
  | ok pid =>
    cases hp : find_post s pid with
    | none => simpa [toggle_vote, hoid, hp] using ⟨h1, h2, h3, h4, h5, h6, h7⟩
    | some p =>
      obtain ⟨hpmem, hpid⟩ := find_post_mem s pid p hp
      have hpidmem : pid ∈ s.posts.map Post.id := hpid ▸ List.mem_map_of_mem Post.id hpmem
      cases hf : find_vote s pid device_id with
      | none =>
        rw [toggle_vote_insert s post_id device_id now pid p hoid hp hf]
        dsimp only
        have hmap : (updateFirst (fun q => q.id == pid)
            (fun q => { q with votes_count := q.votes_count + 1, updated_at := now })
              s.posts).map Post.id = s.posts.map Post.id :=
          map_id_updateFirst _ _ _ (fun q => rfl)
        refine ⟨?_, ?_, ?_, ?_, ?_, ?_, ?_⟩
        · intro i hi
          rw [hmap] at hi
          exact Nat.lt_succ_of_lt (h1 i hi)
        · intro i hi
          rw [List.map_append] at hi
          rcases List.mem_append.mp hi with hi | hi
          · exact Nat.lt_succ_of_lt (h2 i hi)
          · simp only [List.map_cons, List.map_nil, List.mem_singleton] at hi
            subst hi
            exact Nat.lt_succ_self _
        · intro i hi
          exact Nat.lt_succ_of_lt (h3 i hi)
        · rw [hmap]
          exact h4
        · rw [List.map_append, List.nodup_append]
          refine ⟨h5, by simp, ?_⟩
          intro i hi hmem
          simp only [List.map_cons, List.map_nil, List.mem_singleton] at hmem
          subst hmem
          exact Nat.lt_irrefl _ (h2 _ hi)
        · intro v hv
          rw [hmap]
          rcases List.mem_append.mp hv with hv | hv
          · exact h6 v hv
          · simp only [List.mem_singleton] at hv
            subst hv
            exact hpidmem
        · intro c hc
          rw [hmap]
          exact h7 c hc
      | some v =>
        rw [toggle_vote_delete s post_id device_id now pid p v hoid hp hf]
        dsimp only
        have hmap : (updateFirst (fun q => q.id == pid)
            (fun q => { q with votes_count := q.votes_count - 1, updated_at := now })
              s.posts).map Post.id = s.posts.map Post.id :=
          map_id_updateFirst _ _ _ (fun q => rfl)
        have hsub : List.Sublist (s.votes.eraseP (fun w => w.id == v.id)) s.votes :=
          List.eraseP_sublist _
        refine ⟨?_, ?_, ?_, ?_, ?_, ?_, ?_⟩
        · intro i hi
          rw [hmap] at hi
          exact h1 i hi
        · intro i hi
          exact h2 i ((hsub.map Vote.id).subset hi)
        · exact h3
        · rw [hmap]
          exact h4
        · exact List.Nodup.sublist (hsub.map Vote.id) h5
        · intro w hw
          rw [hmap]
          exact h6 w (hsub.subset hw)
        · intro c hc
          rw [hmap]
          exact h7 c hc

theorem voteUniq_toggle (s : Store) (post_id device_id : String) (now : Int)
    (hu : voteUniq s) : voteUniq (toggle_vote s post_id device_id now).2 := by
  cases hoid : oid post_id with
  | error e => simpa [toggle_vote, hoid] using hu
  | ok pid =>
    cases hp : find_post s pid with
    | none => simpa [toggle_vote, hoid, hp] using hu
    | some p =>
      cases hf : find_vote s pid device_id with
      | none =>
        rw [toggle_vote_insert s post_id device_id now pid p hoid hp hf]
        unfold voteUniq
        dsimp only
        refine List.pairwise_append.mpr ⟨hu, List.pairwise_singleton _ _, ?_⟩
        intro a ha b hb
        simp only [List.mem_singleton] at hb
        subst hb
        have hnone := find_vote_none s pid device_id hf a ha
        by_cases h1 : a.post_id = pid
        · refine Or.inr (fun h2 => hnone ⟨h1, ?_⟩)
          simpa using h2
        · exact Or.inl h1
      | some v =>
        rw [toggle_vote_delete s post_id device_id now pid p v hoid hp hf]
        unfold voteUniq
        dsimp only
        exact List.Pairwise.sublist (List.eraseP_sublist _) hu

theorem counterInv_toggle (s : Store) (post_id device_id : String) (now : Int)
    (hwf : storeWF s) (hc : counterInv s) :
    counterInv (toggle_vote s post_id device_id now).2 := by
  obtain ⟨h1, h2, h3, h4, h5, h6, h7⟩ := hwf
  cases hoid : oid post_id with
  | error e => simpa [toggle_vote, hoid] using hc
  | ok pid =>
    cases hp : find_post s pid with
    | none => simpa [toggle_vote, hoid, hp] using hc
    | some p =>
      cases hf : find_vote s pid device_id with
      | none =>
        rw [toggle_vote_insert s post_id device_id now pid p hoid hp hf]
        unfold counterInv
        dsimp only
        intro x hx
        rcases mem_updateFirst_nodup _ pid s.posts h4 x hx with ⟨hxmem, hxne⟩ | ⟨y, hymem, hyid, rfl⟩
        · obtain ⟨hcv, hcc⟩ := hc x hxmem
          refine ⟨?_, hcc⟩
          rw [countVotesFor_append, countVotesFor_singleton]
          dsimp only
          rw [if_neg (fun hh => hxne hh.symm)]
          simpa using hcv
        · obtain ⟨hcv, hcc⟩ := hc y hymem
          constructor
          · show y.votes_count + 1 = _
            rw [countVotesFor_append, countVotesFor_singleton]
            dsimp only
            rw [if_pos (by rw [hyid])]
            rw [hyid] at hcv ⊢
            push_cast
            omega
          · show y.comments_count = _
            exact hcc
      | some v =>
        obtain ⟨hvmem, hvpid, hvdev⟩ := find_vote_mem s pid device_id v hf
        obtain ⟨l₁, l₂, hsplit, herase, -⟩ := erase_found_decomp pid device_id s.votes h5 v hf
        rw [toggle_vote_delete s post_id device_id now pid p v hoid hp hf]
        unfold counterInv
        dsimp only
        intro x hx
        rcases mem_updateFirst_nodup _ pid s.posts h4 x hx with ⟨hxmem, hxne⟩ | ⟨y, hymem, hyid, rfl⟩
        · obtain ⟨hcv, hcc⟩ := hc x hxmem
          refine ⟨?_, hcc⟩
          rw [hsplit, countVotesFor_append, countVotesFor_cons,
            if_neg (fun hh => hxne ((hvpid ▸ hh).symm))] at hcv
          rw [herase, countVotesFor_append]
          push_cast at hcv ⊢
          omega
        · obtain ⟨hcv, hcc⟩ := hc y hymem
          constructor
          · show y.votes_count - 1 = _
            rw [hsplit, countVotesFor_append, countVotesFor_cons,
              if_pos (by rw [hvpid, hyid])] at hcv
            rw [herase, countVotesFor_append]
            push_cast at hcv ⊢
            omega
          · show y.comments_count = _
            exact hcc

/-! ### Invariant preservation by add_comment, create_post and seeding -/

theorem storeWF_addComment (s : Store) (post_id content : String)
    (author device_id : Option String) (now : Int) (hwf : storeWF s) :
    storeWF (add_comment s post_id content author device_id now).2 := by
  obtain ⟨h1, h2, h3, h4, h5, h6, h7⟩ := hwf
  cases hoid : oid post_id with
  | error e => simpa [add_comment, hoid] using ⟨h1, h2, h3, h4, h5, h6, h7⟩
  | ok pid =>
    cases hp : find_post s pid with
    | none => simpa [add_comment, hoid, hp] using ⟨h1, h2, h3, h4, h5, h6, h7⟩
    | some p =>
      obtain ⟨hpmem, hpid⟩ := find_post_mem s pid p hp
      have hpidmem : pid ∈ s.posts.map Post.id := hpid ▸ List.mem_map_of_mem Post.id hpmem
      rw [add_comment_ok s post_id content author device_id now pid p hoid hp]
      dsimp only
      have hmap : (updateFirst (fun q => q.id == pid)
          (fun q => { q with comments_count := q.comments_count + 1, updated_at := now })
            s.posts).map Post.id = s.posts.map Post.id :=
        map_id_updateFirst _ _ _ (fun q => rfl)
      refine ⟨?_, ?_, ?_, ?_, ?_, ?_, ?_⟩
      · intro i hi
        rw [hmap] at hi
        exact Nat.lt_succ_of_lt (h1 i hi)
      · intro i hi
        exact Nat.lt_succ_of_lt (h2 i hi)
      · intro i hi
        rw [List.map_append] at hi
        rcases List.mem_append.mp hi with hi | hi
        · exact Nat.lt_succ_of_lt (h3 i hi)
        · simp only [List.map_cons, List.map_nil, List.mem_singleton] at hi
          subst hi
          exact Nat.lt_succ_self _
      · rw [hmap]
        exact h4
      · exact h5
      · intro v hv
        rw [hmap]
        exact h6 v hv
      · intro c hc
        rw [hmap]
        rcases List.mem_append.mp hc with hc | hc
        · exact h7 c hc
        · simp only [List.mem_singleton] at hc
          subst hc
          exact hpidmem

theorem voteUniq_addComment (s : Store) (post_id content : String)
    (author device_id : Option String) (now : Int) (hu : voteUniq s) :
    voteUniq (add_comment s post_id content author device_id now).2 := by
  cases hoid : oid post_id with
  | error e => simpa [add_comment, hoid] using hu
  | ok pid =>
    cases hp : find_post s pid with
    | none => simpa [add_comment, hoid, hp] using hu
    | some p =>
      rw [add_comment_ok s post_id content author device_id now pid p hoid hp]
      exact hu

theorem counterInv_addComment (s : Store) (post_id content : String)
    (author device_id : Option String) (now : Int)
    (hwf : storeWF s) (hc : counterInv s) :
    counterInv (add_comment s post_id content author device_id now).2 := by
  obtain ⟨h1, h2, h3, h4, h5, h6, h7⟩ := hwf
  cases hoid : oid post_id with
  | error e => simpa [add_comment, hoid] using hc
  | ok pid =>
    cases hp : find_post s pid with
    | none => simpa [add_comment, hoid, hp] using hc
    | some p =>
      rw [add_comment_ok s post_id content author device_id now pid p hoid hp]
      unfold counterInv
      dsimp only
      intro x hx
      rcases mem_updateFirst_nodup _ pid s.posts h4 x hx with ⟨hxmem, hxne⟩ | ⟨y, hymem, hyid, rfl⟩
      · obtain ⟨hcv, hcc⟩ := hc x hxmem
        refine ⟨hcv, ?_⟩
        rw [countCommentsFor_append, countCommentsFor_singleton]
        dsimp only
        rw [if_neg (fun hh => hxne hh.symm)]
        simpa using hcc
      · obtain ⟨hcv, hcc⟩ := hc y hymem
        constructor
        · show y.votes_count = _
          exact hcv
        · show y.comments_count + 1 = _
          rw [countCommentsFor_append, countCommentsFor_singleton]
          dsimp only
          rw [if_pos (by rw [hyid])]
          rw [hyid] at hcc ⊢
          push_cast
          omega

theorem storeWF_create (s : Store) (title tagline : String) (maker url : Option String)
    (now : Int) (hwf : storeWF s) :
    storeWF (create_post s title tagline maker url now).1 := by
  obtain ⟨h1, h2, h3, h4, h5, h6, h7⟩ := hwf
  unfold create_post
  dsimp only
  refine ⟨?_, ?_, ?_, ?_, ?_, ?_, ?_⟩
  · intro i hi
    rw [List.map_append] at hi
    rcases List.mem_append.mp hi with hi | hi
    · exact Nat.lt_succ_of_lt (h1 i hi)
    · simp only [List.map_cons, List.map_nil, List.mem_singleton] at hi
      subst hi
      exact Nat.lt_succ_self _
  · intro i hi
    exact Nat.lt_succ_of_lt (h2 i hi)
  · intro i hi
    exact Nat.lt_succ_of_lt (h3 i hi)
  · rw [List.map_append, List.nodup_append]
    refine ⟨h4, by simp, ?_⟩
    intro i hi hmem
    simp only [List.map_cons, List.map_nil, List.mem_singleton] at hmem
    subst hmem
    exact Nat.lt_irrefl _ (h1 _ hi)
  · exact h5
  · intro v hv
    rw [List.map_append]
    exact List.mem_append_left _ (h6 v hv)
  · intro c hc
    rw [List.map_append]
    exact List.mem_append_left _ (h7 c hc)

theorem voteUniq_create (s : Store) (title tagline : String) (maker url : Option String)
    (now : Int) (hu : voteUniq s) :
    voteUniq (create_post s title tagline maker url now).1 := hu

theorem counterInv_create (s : Store) (title tagline : String) (maker url : Option String)
    (now : Int) (hwf : storeWF s) (hc : counterInv s) :
    counterInv (create_post s title tagline maker url now).1 := by
  obtain ⟨h1, h2, h3, h4, h5, h6, h7⟩ := hwf
  unfold create_post counterInv
  dsimp only
  intro x hx
  rcases List.mem_append.mp hx with hx | hx
  · exact hc x hx
  · simp only [List.mem_singleton] at hx
    subst hx
    constructor
    · show (0 : Int) = _
      rw [countVotesFor_eq_zero]
      · simp
      · intro v hv hvpid
        exact Nat.lt_irrefl _ (hvpid ▸ h1 _ (h6 v hv))
    · show (0 : Int) = _
      rw [countCommentsFor_eq_zero]
      · simp
      · intro c hcm hcpid
        exact Nat.lt_irrefl _ (hcpid ▸ h1 _ (h7 c hcm))

/-- When the post collection is empty, seeding inserts exactly the four
samples and two "demo-device" votes on the first two of them. -/
theorem seed_posts_of_empty (s : Store) (now : Int) (hp : s.posts = []) :
    seed_posts s now =
      ⟨samplePosts now s.nextId,
       s.votes ++ [⟨s.nextId + 4, s.nextId, "demo-device", now, now⟩,
        ⟨s.nextId + 5, s.nextId + 1, "demo-device", now, now⟩],
       s.comments, s.nextId + 6⟩ := by
  rw [seed_posts, if_neg (by simp [hp])]
  simp [hp, samplePosts]

theorem storeWF_seed (s : Store) (now : Int) (hwf : storeWF s) :
    storeWF (seed_posts s now) := by
  obtain ⟨h1, h2, h3, h4, h5, h6, h7⟩ := hwf
  by_cases hp : s.posts = []
  · have hv : s.votes = [] := by
      rw [List.eq_nil_iff_forall_not_mem]
      intro v hv
      exact absurd (h6 v hv) (by simp [hp])
    have hcm : s.comments = [] := by
      rw [List.eq_nil_iff_forall_not_mem]
      intro c hc
      exact absurd (h7 c hc) (by simp [hp])
    rw [seed_posts_of_empty s now hp]
    refine ⟨?_, ?_, ?_, ?_, ?_, ?_, ?_⟩ <;>
      simp [samplePosts, hv, hcm, votePairOk] <;> omega
  · rw [seed_posts, if_pos (by simpa [List.length_pos_iff_ne_nil] using hp)]
    exact ⟨h1, h2, h3, h4, h5, h6, h7⟩

theorem voteUniq_seed (s : Store) (now : Int) (hwf : storeWF s) (hu : voteUniq s) :
    voteUniq (seed_posts s now) := by
  obtain ⟨h1, h2, h3, h4, h5, h6, h7⟩ := hwf
  by_cases hp : s.posts = []
  · have hv : s.votes = [] := by
      rw [List.eq_nil_iff_forall_not_mem]
      intro v hv
      exact absurd (h6 v hv) (by simp [hp])
    rw [seed_posts_of_empty s now hp]
    unfold voteUniq
    dsimp only
    rw [hv]
    simp [votePairOk]
  · rw [seed_posts, if_pos (by simpa [List.length_pos_iff_ne_nil] using hp)]
    exact hu

/-- All three invariants hold in every reachable state. -/
theorem reachable_wf_uniq_inv : ∀ s : Store, Reachable s → storeWF s ∧ voteUniq s ∧ counterInv s := by
  intro s h
  induction h with
  | empty =>
    refine ⟨?_, ?_, ?_⟩ <;> simp [storeWF, voteUniq, counterInv, emptyStore]
  | create s title tagline maker url now _ ih =>
    exact ⟨storeWF_create _ _ _ _ _ _ ih.1, voteUniq_create _ _ _ _ _ _ ih.2.1,
      counterInv_create _ _ _ _ _ _ ih.1 ih.2.2⟩
  | toggle s post_id device_id now _ ih =>
    exact ⟨storeWF_toggle _ _ _ _ ih.1, voteUniq_toggle _ _ _ _ ih.2.1,
      counterInv_toggle _ _ _ _ ih.1 ih.2.2⟩
  | comment s post_id content author device_id now _ ih =>
    exact ⟨storeWF_addComment _ _ _ _ _ _ ih.1, voteUniq_addComment _ _ _ _ _ _ ih.2.1,
      counterInv_addComment _ _ _ _ _ _ ih.1 ih.2.2⟩

/-! ### Toggle alternation machinery -/

theorem offState_step (s : Store) (post_id device_id : String) (now : Int) (pid : Nat) (v0 : Int)
    (hoid : oid post_id = Except.ok pid)
    (h : OffState s pid device_id v0) :
    (toggle_vote s post_id device_id now).1 = Except.ok (true, v0 + 1) ∧
    OnState (toggle_vote s post_id device_id now).2 pid device_id (v0 + 1) := by
  obtain ⟨hwf, hu, hn, hfp⟩ := h
  obtain ⟨p, hp, hv0⟩ : ∃ p, find_post s pid = some p ∧ p.votes_count = v0 := by
    cases hfp2 : find_post s pid with
    | none => rw [hfp2] at hfp; cases hfp
    | some p =>
      rw [hfp2] at hfp
      exact ⟨p, rfl, by simpa using hfp⟩
  subst hv0
  have hwf2 := storeWF_toggle s post_id device_id now hwf
  have hu2 := voteUniq_toggle s post_id device_id now hu
  rw [toggle_vote_insert s post_id device_id now pid p hoid hp hn] at hwf2 hu2 ⊢
  refine ⟨rfl, hwf2, hu2, ?_, ?_⟩
  · show (List.find? _ _).isSome = true
    rw [List.find?_append]
    have hn2 : s.votes.find? (fun w => w.post_id == pid && w.device_id == device_id) = none := hn
    rw [hn2]
    simp
  · show (List.find? _ _).map Post.votes_count = _
    rw [find?_updateFirst (fun q => q.id == pid)
      (fun q => { q with votes_count := q.votes_count + 1, updated_at := now })
      (fun x => rfl) s.posts]
    rw [show s.posts.find? (fun q => q.id == pid) = some p from hp]
    rfl

theorem onState_step (s : Store) (post_id device_id : String) (now : Int) (pid : Nat) (v1 : Int)
    (hoid : oid post_id = Except.ok pid)
    (h : OnState s pid device_id v1) :
    (toggle_vote s post_id device_id now).1 = Except.ok (false, v1 - 1) ∧
    OffState (toggle_vote s post_id device_id now).2 pid device_id (v1 - 1) := by
  obtain ⟨hwf, hu, hsome, hfp⟩ := h
  obtain ⟨p, hp, hv1⟩ : ∃ p, find_post s pid = some p ∧ p.votes_count = v1 := by
    cases hfp2 : find_post s pid with
    | none => rw [hfp2] at hfp; cases hfp
    | some p =>
      rw [hfp2] at hfp
      exact ⟨p, rfl, by simpa using hfp⟩
  subst hv1
  obtain ⟨v, hf⟩ : ∃ v, find_vote s pid device_id = some v := by
    cases hf2 : find_vote s pid device_id with
    | none => rw [hf2] at hsome; cases hsome
    | some v => exact ⟨v, rfl⟩
  obtain ⟨hvmem, hvpid, hvdev⟩ := find_vote_mem s pid device_id v hf
  obtain ⟨l₁, l₂, hsplit, herase, hnomatch⟩ := erase_found_decomp pid device_id s.votes hwf.2.2.2.2.1 v hf
  have hwf2 := storeWF_toggle s post_id device_id now hwf
  have hu2 := voteUniq_toggle s post_id device_id now hu
  rw [toggle_vote_delete s post_id device_id now pid p v hoid hp hf] at hwf2 hu2 ⊢
  refine ⟨rfl, hwf2, hu2, ?_, ?_⟩
  · show List.find? _ _ = none
    rw [herase, List.find?_eq_none]
    have hpl2 : ∀ b ∈ l₂, ¬(b.post_id = pid ∧ b.device_id = device_id) := by
      have hu3 : (l₁ ++ v :: l₂).Pairwise votePairOk := hsplit ▸ hu
      have := (List.pairwise_append.mp hu3).2.1
      rw [List.pairwise_cons] at this
      intro b hb hc
      rcases this.1 b hb with hne | hne
      · exact hne (hvpid.trans hc.1.symm)
      · exact hne (hvdev.trans hc.2.symm)
    intro w hw
    rcases List.mem_append.mp hw with hw | hw
    · intro hc
      simp only [Bool.and_eq_true, beq_iff_eq] at hc
      exact hnomatch w hw hc
    · intro hc
      simp only [Bool.and_eq_true, beq_iff_eq] at hc
      exact hpl2 w hw hc
  · show (List.find? _ _).map Post.votes_count = _
    rw [find?_updateFirst (fun q => q.id == pid)
      (fun q => { q with votes_count := q.votes_count - 1, updated_at := now })
      (fun x => rfl) s.posts]
    rw [show s.posts.find? (fun q => q.id == pid) = some p from hp]
    rfl

theorem offPattern_succ (v0 : Int) (N : Nat) :
    offPattern v0 (N + 1) = Except.ok (true, v0 + 1) :: onPattern (v0 + 1) N := by
  unfold offPattern onPattern
  rw [List.range_succ_eq_map, List.map_cons, List.map_map]
  refine congrArg₂ _ (by simp) (List.map_congr_left ?_)
  intro k _
  rcases Nat.mod_two_eq_zero_or_one k with hk | hk
  · have h1 : (k + 1) % 2 = 1 := by omega
    simp [Function.comp, hk, h1]
  · have h0 : (k + 1) % 2 = 0 := by omega
    simp [Function.comp, hk, h0]

theorem onPattern_succ (v1 : Int) (N : Nat) :
    onPattern v1 (N + 1) = Except.ok (false, v1 - 1) :: offPattern (v1 - 1) N := by
  unfold offPattern onPattern
  rw [List.range_succ_eq_map, List.map_cons, List.map_map]
  refine congrArg₂ _ (by simp) (List.map_congr_left ?_)
  intro k _
  rcases Nat.mod_two_eq_zero_or_one k with hk | hk
  · have h1 : (k + 1) % 2 = 1 := by omega
    simp [Function.comp, hk, h1]
  · have h0 : (k + 1) % 2 = 0 := by omega
    simp [Function.comp, hk, h0]

theorem toggleN_alternation (post_id device_id : String) (now : Int) (pid : Nat)
    (hoid : oid post_id = Except.ok pid) :
    ∀ N : Nat,
      (∀ s v0, OffState s pid device_id v0 →
        (toggleN s post_id device_id now N).1 = offPattern v0 N ∧
        (N % 2 = 0 → OffState (toggleN s post_id device_id now N).2 pid device_id v0) ∧
        (N % 2 = 1 → OnState (toggleN s post_id device_id now N).2 pid device_id (v0 + 1))) ∧
      (∀ s v1, OnState s pid device_id v1 →
        (toggleN s post_id device_id now N).1 = onPattern v1 N ∧
        (N % 2 = 0 → OnState (toggleN s post_id device_id now N).2 pid device_id v1) ∧
        (N % 2 = 1 → OffState (toggleN s post_id device_id now N).2 pid device_id (v1 - 1)))
  | 0 =>
    ⟨fun s v0 h => ⟨by simp [toggleN, offPattern], fun _ => h, fun h1 => by cases h1⟩,
     fun s v1 h => ⟨by simp [toggleN, onPattern], fun _ => h, fun h1 => by cases h1⟩⟩
  | N + 1 => by
    obtain ⟨IHoff, IHon⟩ := toggleN_alternation post_id device_id now pid hoid N
    constructor
    · intro s v0 h
      obtain ⟨hr, hs2⟩ := offState_step s post_id device_id now pid v0 hoid h
      obtain ⟨hres, hfin0, hfin1⟩ := IHon (toggle_vote s post_id device_id now).2 (v0 + 1) hs2
      refine ⟨?_, ?_, ?_⟩
      · show (toggle_vote s post_id device_id now).1
            :: (toggleN (toggle_vote s post_id device_id now).2 post_id device_id now N).1
            = offPattern v0 (N + 1)
        rw [hr, hres, offPattern_succ]
      · intro hN
        have hN2 : N % 2 = 1 := by omega
        have := hfin1 hN2
        show OffState (toggleN (toggle_vote s post_id device_id now).2 post_id device_id now N).2
          pid device_id v0
        simpa using this
      · intro hN
        have hN2 : N % 2 = 0 := by omega
        exact hfin0 hN2
    · intro s v1 h
      obtain ⟨hr, hs2⟩ := onState_step s post_id device_id now pid v1 hoid h
      obtain ⟨hres, hfin0, hfin1⟩ := IHoff (toggle_vote s post_id device_id now).2 (v1 - 1) hs2
      refine ⟨?_, ?_, ?_⟩
      · show (toggle_vote s post_id device_id now).1
            :: (toggleN (toggle_vote s post_id device_id now).2 post_id device_id now N).1
            = onPattern v1 (N + 1)
        rw [hr, hres, onPattern_succ]
      · intro hN
        have hN2 : N % 2 = 1 := by omega
        have := hfin1 hN2
        show OnState (toggleN (toggle_vote s post_id device_id now).2 post_id device_id now N).2
          pid device_id v1
        simpa using this
      · intro hN
        have hN2 : N % 2 = 0 := by omega
        exact hfin0 hN2

/-! ### Sort order facts -/

theorem postLe_trans (key : Post → Int) (a b c : Post) :
    postLe key a b → postLe key b c → postLe key a c := by
  unfold postLe
  simp only [Bool.or_eq_true, Bool.and_eq_true, decide_eq_true_eq]
  intro hab hbc
  rcases hab with h1 | ⟨h1, h2⟩ <;> rcases hbc with h3 | ⟨h3, h4⟩
  · exact Or.inl (by omega)
  · exact Or.inl (by omega)
  · exact Or.inl (by omega)
  · exact Or.inr ⟨by omega, by omega⟩

theorem postLe_total (key : Post → Int) (a b : Post) :
    postLe key a b || postLe key b a := by
  unfold postLe
  simp only [Bool.or_eq_true, Bool.and_eq_true, decide_eq_true_eq]
  omega

theorem commentLe_trans (a b c : Comment) :
    (decide (b.created_at ≤ a.created_at)) → (decide (c.created_at ≤ b.created_at)) →
    (decide (c.created_at ≤ a.created_at)) := by
  simp only [decide_eq_true_eq]
  omega

theorem commentLe_total (a b : Comment) :
    (decide (b.created_at ≤ a.created_at)) || (decide (a.created_at ≤ b.created_at)) := by
  simp only [Bool.or_eq_true, decide_eq_true_eq]
  omega

/-! ### Claims -/

/-- Claim C2 counterexample: startup seeding itself breaks the counter
invariant — the first seeded post carries votes_count 28 while exactly one
Vote record references it (and no Comment records exist at all, against
comments_count 6). -/
theorem counterInv_seed_counterexample :
    ¬counterInv (seed_posts emptyStore 0) ∧
    (find_post (seed_posts emptyStore 0) 0).map Post.votes_count = some 28 ∧
    countVotesFor (seed_posts emptyStore 0).votes 0 = 1 ∧
    (find_post (seed_posts emptyStore 0) 0).map Post.comments_count = some 6 ∧
    countCommentsFor (seed_posts emptyStore 0).comments 0 = 0 :=
  ⟨by decide, by decide, by decide, by decide, by decide⟩

/-- Claim C2 (amended): in every state reachable from the empty store by the
program operations create_post, toggle_vote and add_comment, every Post has
votes_count equal to the number of Vote records referencing it and
comments_count equal to the number of Comment records referencing it.
Startup seeding is excluded: it installs demo counters that do not match the
Vote/Comment records (see the counterexample). -/
theorem counterInv_reachable (s : Store) (h : Reachable s) : counterInv s :=
  (reachable_wf_uniq_inv s h).2.2

theorem counterInv_reachable_witness :
    counterInv (toggle_vote (create_post emptyStore "Idea" "Tag" none none 0).1
      "000000000000000000000000" "dev" 1).2 :=
  counterInv_reachable _
    (Reachable.toggle _ _ _ _ (Reachable.create _ "Idea" "Tag" none none 0 Reachable.empty))

/-- Claim C3: at most one Vote record per (post_id, device_id) pair — every
operation (toggle_vote, which inserts only when the exact-key lookup finds
none and deletes the found vote otherwise; create_post; add_comment; and
seeding) preserves the uniqueness invariant on a well-formed store. -/
theorem vote_uniqueness_preserved (s : Store)
    (post_id device_id title tagline content : String)
    (maker url author devid : Option String) (now : Int)
    (hwf : storeWF s) (hu : voteUniq s) :
    voteUniq (toggle_vote s post_id device_id now).2 ∧
    voteUniq (create_post s title tagline maker url now).1 ∧
    voteUniq (add_comment s post_id content author devid now).2 ∧
    voteUniq (seed_posts s now) :=
  ⟨voteUniq_toggle s post_id device_id now hu,
   voteUniq_create s title tagline maker url now hu,
   voteUniq_addComment s post_id content author devid now hu,
   voteUniq_seed s now hwf hu⟩

theorem vote_uniqueness_preserved_witness :
    voteUniq (toggle_vote emptyStore "000000000000000000000000" "dd" 1).2 ∧
    voteUniq (create_post emptyStore "T" "G" none none 1).1 ∧
    voteUniq (add_comment emptyStore "000000000000000000000000" "c" none none 1).2 ∧
    voteUniq (seed_posts emptyStore 1) :=
  vote_uniqueness_preserved emptyStore "000000000000000000000000" "dd" "T" "G" "c"
    none none none none 1 (by decide) (by decide)

/-- Claim C4: for a well-formed post id matching no existing Post,
toggle_vote and add_comment both fail with NotFound and leave the store
exactly as it was — no Vote or Comment record is created and no counter
changes. -/
theorem notFound_no_mutation (s : Store) (post_id device_id content : String)
    (author devid : Option String) (now : Int)
    (hv : isValidObjectId post_id = true)
    (hnp : find_post s (oidVal post_id) = none) :
    toggle_vote s post_id device_id now = (Except.error ApiError.notFound, s) ∧
    add_comment s post_id content author devid now = (Except.error ApiError.notFound, s) := by
  have hoid : oid post_id = Except.ok (oidVal post_id) := by simp [oid, hv]
  exact ⟨by simp [toggle_vote, hoid, hnp], by simp [add_comment, hoid, hnp]⟩

theorem notFound_no_mutation_witness :
    toggle_vote emptyStore "abcdefabcdefabcdefabcdef" "dd" 2
      = (Except.error ApiError.notFound, emptyStore) ∧
    add_comment emptyStore "abcdefabcdefabcdefabcdef" "hi" none none 2
      = (Except.error ApiError.notFound, emptyStore) :=
  notFound_no_mutation emptyStore "abcdefabcdefabcdefabcdef" "dd" "hi" none none 2
    (by decide) (by decide)

/-- Claim C9: an id string that the ObjectId parser rejects makes every
id-taking operation (get_post, toggle_vote, add_comment, list_comments)
fail with the InvalidId client error, leaving the store untouched. -/
theorem invalid_id_rejected (s : Store) (post_id device_id content : String)
    (author devid : Option String) (now : Int)
    (hv : isValidObjectId post_id = false) :
    get_post s post_id = (Except.error ApiError.invalidId, s) ∧
    toggle_vote s post_id device_id now = (Except.error ApiError.invalidId, s) ∧
    add_comment s post_id content author devid now = (Except.error ApiError.invalidId, s) ∧
    list_comments s post_id = (Except.error ApiError.invalidId, s) := by
  have hoid : oid post_id = Except.error ApiError.invalidId := by simp [oid, hv]
  exact ⟨by simp [get_post, hoid], by simp [toggle_vote, hoid],
    by simp [add_comment, hoid], by simp [list_comments, hoid]⟩

theorem invalid_id_rejected_witness :
    get_post wStore "nope" = (Except.error ApiError.invalidId, wStore) ∧
    toggle_vote wStore "nope" "dd" 2 = (Except.error ApiError.invalidId, wStore) ∧
    add_comment wStore "nope" "hi" none none 2 = (Except.error ApiError.invalidId, wStore) ∧
    list_comments wStore "nope" = (Except.error ApiError.invalidId, wStore) :=
  invalid_id_rejected wStore "nope" "dd" "hi" none none 2 (by decide)

/-- Claim C10: create_post stores the post with zero counters, trimmed title
and tagline (an empty or whitespace-only title or tagline is accepted and
stored as the empty string, not rejected), maker and url reduced to none
when absent or empty after trimming, fresh created_at and updated_at, and
appends it to the post collection. -/
theorem create_post_fields (s : Store) (title tagline : String)
    (maker url : Option String) (now : Int) :
    (create_post s title tagline maker url now).2.votes_count = 0 ∧
    (create_post s title tagline maker url now).2.comments_count = 0 ∧
    (create_post s title tagline maker url now).2.title = pyStrip title ∧
    (create_post s title tagline maker url now).2.tagline = pyStrip tagline ∧
    (create_post s title tagline maker url now).2.maker
      = (match maker with
         | none => none
         | some m => if pyStrip m = "" then none else some (pyStrip m)) ∧
    (create_post s title tagline maker url now).2.url
      = (match url with
         | none => none
         | some u => if pyStrip u = "" then none else some (pyStrip u)) ∧
    (create_post s title tagline maker url now).2.created_at = now ∧
    (create_post s title tagline maker url now).2.updated_at = now ∧
    (create_post s title tagline maker url now).1.posts
      = s.posts ++ [(create_post s title tagline maker url now).2] := by
  refine ⟨rfl, rfl, rfl, rfl, ?_, ?_, rfl, rfl, rfl⟩
  · cases maker with
    | none => simp [create_post, stripOrNone, pyStrip]
    | some m => rfl
  · cases url with
    | none => simp [create_post, stripOrNone, pyStrip]
    | some u => rfl

/-- Claim C5 counterexample: content that is whitespace-only (hence empty
after trimming) is NOT rejected — add_comment persists a Comment with empty
content and increments comments_count. -/
theorem add_comment_empty_content_counterexample :
    ((add_comment wStore "000000000000000000000000" "   " none none 3).2.comments.filter
        (fun c => c.content == "")).length = 1 ∧
    (find_post (add_comment wStore "000000000000000000000000" "   " none none 3).2 0).map
        Post.comments_count = some 1 ∧
    (add_comment wStore "000000000000000000000000" "   " none none 3).1
      = Except.ok ⟨1, 0, none, "", none, 3, 3⟩ :=
  ⟨by decide, by decide, by decide⟩

/-- Claim C5 (amended): for add_comment on an existing post the content is
trimmed before insertion, but content that is empty after trimming is NOT
rejected: the Comment (with empty content) is inserted and comments_count is
incremented all the same. -/
theorem add_comment_trims_and_inserts (s : Store) (post_id content : String)
    (author devid : Option String) (now : Int) (p : Post)
    (hv : isValidObjectId post_id = true)
    (hp : find_post s (oidVal post_id) = some p) :
    ∃ c s2, add_comment s post_id content author devid now = (Except.ok c, s2) ∧
      c.content = pyStrip content ∧
      s2.comments = s.comments ++ [c] ∧
      (find_post s2 (oidVal post_id)).map Post.comments_count
        = some (p.comments_count + 1) := by
  have hoid : oid post_id = Except.ok (oidVal post_id) := by simp [oid, hv]
  rw [add_comment_ok s post_id content author devid now (oidVal post_id) p hoid hp]
  refine ⟨_, _, rfl, rfl, rfl, ?_⟩
  show (List.find? _ _).map Post.comments_count = _
  rw [find?_updateFirst (fun q => q.id == oidVal post_id)
    (fun q => { q with comments_count := q.comments_count + 1, updated_at := now })
    (fun x => rfl) s.posts]
  rw [show s.posts.find? (fun q => q.id == oidVal post_id) = some p from hp]
  rfl

theorem add_comment_trims_and_inserts_witness :
    ∃ c s2, add_comment wStore "000000000000000000000000" "   " none none 3
        = (Except.ok c, s2) ∧
      c.content = pyStrip "   " ∧
      s2.comments = wStore.comments ++ [c] ∧
      (find_post s2 (oidVal "000000000000000000000000")).map Post.comments_count
        = some ((⟨0, "A", "B", none, none, 0, 0, 0, 0⟩ : Post).comments_count + 1) :=
  add_comment_trims_and_inserts wStore "000000000000000000000000" "   " none none 3
    ⟨0, "A", "B", none, none, 0, 0, 0, 0⟩ (by decide) (by decide)

/-- Claim C6: list_posts applies a creation-time lower bound selected by the
range argument: week keeps exactly the posts with created_at at or above
now − 7 days (a post created 7 days and 1 second ago is excluded, one
created 6 days 23 hours ago is included), month uses now − 30 days, and any
other value (including "all") applies no bound, so future-dated posts are
never excluded. -/
theorem list_posts_range_filter (s : Store) (range sort : String) (now : Int) (p : Post)
    (hr : range ≠ "week" ∧ range ≠ "month") :
    (p ∈ list_posts s "week" sort now ↔ p ∈ s.posts ∧ now - 7 * day ≤ p.created_at) ∧
    (p ∈ list_posts s "month" sort now ↔ p ∈ s.posts ∧ now - 30 * day ≤ p.created_at) ∧
    (p ∈ list_posts s range sort now ↔ p ∈ s.posts) ∧
    (p.created_at = now - (7 * day + 1) → p ∉ list_posts s "week" sort now) ∧
    (p.created_at = now - (6 * day + 23 * hour) → p ∈ s.posts →
      p ∈ list_posts s "week" sort now) := by
  have hmem : ∀ r, p ∈ list_posts s r sort now ↔ p ∈ rangeFilter r now s.posts := by
    intro r
    unfold list_posts
    exact (List.mergeSort_perm _ _).mem_iff
  have hweek : p ∈ list_posts s "week" sort now
      ↔ p ∈ s.posts ∧ now - 7 * day ≤ p.created_at := by
    rw [hmem]
    unfold rangeFilter
    simp [List.mem_filter]
  have hmonth : p ∈ list_posts s "month" sort now
      ↔ p ∈ s.posts ∧ now - 30 * day ≤ p.created_at := by
    rw [hmem]
    unfold rangeFilter
    simp [List.mem_filter]
  refine ⟨hweek, hmonth, ?_, ?_, ?_⟩
  · rw [hmem]
    unfold rangeFilter
    rw [if_neg hr.1, if_neg hr.2]
  · intro hc hmemw
    have := (hweek.mp hmemw).2
    rw [hc] at this
    unfold day at this
    omega
  · intro hc hmemp
    refine hweek.mpr ⟨hmemp, ?_⟩
    rw [hc]
    unfold day hour
    omega

theorem list_posts_range_filter_witness :
    ((⟨0, "A", "B", none, none, 0, 0, 0, 0⟩ : Post) ∈ list_posts wStore "week" "votes" 5
      ↔ (⟨0, "A", "B", none, none, 0, 0, 0, 0⟩ : Post) ∈ wStore.posts ∧
        (5 : Int) - 7 * day ≤ (0 : Int)) ∧
    ((⟨0, "A", "B", none, none, 0, 0, 0, 0⟩ : Post) ∈ list_posts wStore "month" "votes" 5
      ↔ (⟨0, "A", "B", none, none, 0, 0, 0, 0⟩ : Post) ∈ wStore.posts ∧
        (5 : Int) - 30 * day ≤ (0 : Int)) ∧
    ((⟨0, "A", "B", none, none, 0, 0, 0, 0⟩ : Post) ∈ list_posts wStore "all" "votes" 5
      ↔ (⟨0, "A", "B", none, none, 0, 0, 0, 0⟩ : Post) ∈ wStore.posts) ∧
    ((0 : Int) = 5 - (7 * day + 1) →
      (⟨0, "A", "B", none, none, 0, 0, 0, 0⟩ : Post) ∉ list_posts wStore "week" "votes" 5) ∧
    ((0 : Int) = 5 - (6 * day + 23 * hour) →
      (⟨0, "A", "B", none, none, 0, 0, 0, 0⟩ : Post) ∈ wStore.posts →
      (⟨0, "A", "B", none, none, 0, 0, 0, 0⟩ : Post) ∈ list_posts wStore "week" "votes" 5) :=
  list_posts_range_filter wStore "all" "votes" 5 ⟨0, "A", "B", none, none, 0, 0, 0, 0⟩
    (by decide)

/-- Claim C7: list_posts returns a permutation of the range-filtered posts
ordered by the primary key selected by the sort argument (comments_count for
"comments", created_at for "latest", votes_count otherwise) descending, with
created_at descending as the tie-break: in the output any later post has a
strictly smaller key, or an equal key and a created_at no larger. -/
theorem list_posts_sort_order (s : Store) (range sort : String) (now : Int) :
    List.Perm (list_posts s range sort now) (rangeFilter range now s.posts) ∧
    (list_posts s range sort now).Pairwise (fun a b =>
      sortKey sort b ≤ sortKey sort a ∧
      (sortKey sort a = sortKey sort b → b.created_at ≤ a.created_at)) ∧
    sortKey "comments" = Post.comments_count ∧
    sortKey "latest" = Post.created_at ∧
    (sort ≠ "comments" → sort ≠ "latest" → sortKey sort = Post.votes_count) := by
  refine ⟨List.mergeSort_perm _ _, ?_, ?_, ?_, ?_⟩
  · have h := @List.sorted_mergeSort Post (postLe (sortKey sort))
      (postLe_trans (sortKey sort)) (postLe_total (sortKey sort))
      (rangeFilter range now s.posts)
    refine h.imp ?_
    intro a b hab
    have hab2 : postLe (sortKey sort) a b = true := hab
    unfold postLe at hab2
    simp only [Bool.or_eq_true, Bool.and_eq_true, decide_eq_true_eq] at hab2
    rcases hab2 with h1 | ⟨h1, h2⟩
    · exact ⟨by omega, fun he => by omega⟩
    · exact ⟨by omega, fun _ => h2⟩
  · unfold sortKey
    simp
  · unfold sortKey
    simp
  · intro h1 h2
    unfold sortKey
    rw [if_neg h1, if_neg h2]

theorem list_posts_sort_order_witness :
    List.Perm (list_posts wStore "all" "votes" 5) (rangeFilter "all" 5 wStore.posts) ∧
    (list_posts wStore "all" "votes" 5).Pairwise (fun a b =>
      sortKey "votes" b ≤ sortKey "votes" a ∧
      (sortKey "votes" a = sortKey "votes" b → b.created_at ≤ a.created_at)) ∧
    sortKey "comments" = Post.comments_count ∧
    sortKey "latest" = Post.created_at ∧
    ("votes" ≠ "comments" → "votes" ≠ "latest" → sortKey "votes" = Post.votes_count) :=
  list_posts_sort_order wStore "all" "votes" 5

/-- Claim C8: for a well-formed id, list_comments succeeds (no existence
check on the post) and returns exactly the Comments whose post_id matches,
ordered by created_at descending; on a well-formed store, when no Post with
that id exists the result is the empty sequence. -/
theorem list_comments_spec (s : Store) (post_id : String)
    (hv : isValidObjectId post_id = true) :
    ∃ cs, list_comments s post_id = (Except.ok cs, s) ∧
      List.Perm cs (s.comments.filter (fun c => c.post_id == oidVal post_id)) ∧
      cs.Pairwise (fun a b => b.created_at ≤ a.created_at) ∧
      (storeWF s → find_post s (oidVal post_id) = none → cs = []) := by
  have hoid : oid post_id = Except.ok (oidVal post_id) := by simp [oid, hv]
  refine ⟨(s.comments.filter (fun c => c.post_id == oidVal post_id)).mergeSort
      (fun a b => decide (b.created_at ≤ a.created_at)), ?_, ?_, ?_, ?_⟩
  · simp [list_comments, hoid]
  · exact List.mergeSort_perm _ _
  · have h := @List.sorted_mergeSort Comment (fun a b => decide (b.created_at ≤ a.created_at))
      commentLe_trans commentLe_total
      (s.comments.filter (fun c => c.post_id == oidVal post_id))
    refine h.imp ?_
    intro a b hab
    simpa using hab
  · intro hwf hnone
    have hfil : s.comments.filter (fun c => c.post_id == oidVal post_id) = [] := by
      rw [List.filter_eq_nil_iff]
      intro c hc
      have h7 := hwf.2.2.2.2.2.2 c hc
      rw [find_post, List.find?_eq_none] at hnone
      simp only [beq_iff_eq]
      intro hcpid
      obtain ⟨q, hqmem, hqid⟩ := List.mem_map.mp h7
      exact absurd (by simp [hqid, hcpid]) (hnone q hqmem)
    rw [hfil]
    simp [List.mergeSort]

theorem list_comments_spec_witness :
    ∃ cs, list_comments wStore "000000000000000000000001" = (Except.ok cs, wStore) ∧
      List.Perm cs (wStore.comments.filter
        (fun c => c.post_id == oidVal "000000000000000000000001")) ∧
      cs.Pairwise (fun a b => b.created_at ≤ a.created_at) ∧
      (storeWF wStore → find_post wStore (oidVal "000000000000000000000001") = none →
        cs = []) :=
  list_comments_spec wStore "000000000000000000000001" (by decide)

/-- Claim C1 counterexample: the seeding path leaves a "demo-device" vote on
the first post (votes_count 28), so the very first toggle_vote call from
that device — an odd-numbered call — returns voted = false with the count
decremented to 27, not voted = true with the count incremented: the
alternation claim fails without the no-existing-vote precondition. -/
theorem toggle_vote_alternation_counterexample :
    (find_post (seed_posts emptyStore 0) 0).map Post.votes_count = some 28 ∧
    (toggleN (seed_posts emptyStore 0) "000000000000000000000000" "demo-device" 7 1).1
      = [Except.ok (false, 27)] ∧
    (toggleN (seed_posts emptyStore 0) "000000000000000000000000" "demo-device" 7 1).1
      ≠ offPattern 28 1 :=
  ⟨by decide, by decide, by decide⟩

/-- Claim C1 (amended): for any post and device such that no Vote for the
(post, device) pair exists before the sequence (in a well-formed store
satisfying the one-vote-per-pair invariant), N sequential toggle_vote calls
return voted = true on odd-numbered calls and voted = false on even-numbered
calls, each call reporting the post-update votes_count (v0 + 1 after odd
calls, v0 after even calls), and after the N calls votes_count has increased
by 1 if N is odd and by 0 if N is even.  When a vote already exists the
sequence starts at voted = false instead (see the counterexample). -/
theorem toggle_vote_alternation (s : Store) (post_id device_id : String) (now : Int)
    (N : Nat) (v0 : Int)
    (hv : isValidObjectId post_id = true)
    (h : OffState s (oidVal post_id) device_id v0) :
    (toggleN s post_id device_id now N).1 = offPattern v0 N ∧
    (find_post (toggleN s post_id device_id now N).2 (oidVal post_id)).map Post.votes_count
      = some (v0 + (if N % 2 = 1 then 1 else 0)) := by
  have hoid : oid post_id = Except.ok (oidVal post_id) := by simp [oid, hv]
  obtain ⟨hres, hfin0, hfin1⟩ :=
    (toggleN_alternation post_id device_id now (oidVal post_id) hoid N).1 s v0 h
  refine ⟨hres, ?_⟩
  rcases Nat.mod_two_eq_zero_or_one N with hN | hN
  · have hoff := (hfin0 hN).2.2.2
    rw [hN]
    simpa using hoff
  · have hon := (hfin1 hN).2.2.2
    rw [hN]
    simpa using hon

theorem toggle_vote_alternation_witness :
    (toggleN wStore "000000000000000000000000" "dev" 5 2).1 = offPattern 0 2 ∧
    (find_post (toggleN wStore "000000000000000000000000" "dev" 5 2).2
        (oidVal "000000000000000000000000")).map Post.votes_count
      = some (0 + (if 2 % 2 = 1 then 1 else 0)) :=
  toggle_vote_alternation wStore "000000000000000000000000" "dev" 5 2 0
    (by decide) (by decide)

end VibeHunt
